import Mathlib

/-!
Verification of `media-utils-mcp` (a Node MCP server exposing media tools)
against its natural-language specification.

The source is a single JavaScript file.  Pure logic (path guarding,
extension coercion, framerate parsing, media-type decision) is translated
directly; the external libraries (`sharp`, `fluent-ffmpeg`/`ffprobe`,
`fs`) are modelled as an explicit environment `Env` of probe functions and
an explicit filesystem state `World`, so every effectful function becomes a
state-passing Lean function.  Node `path` functions are modelled for POSIX
paths (no Windows drive handling; trailing-separator preservation of
`path.normalize` is not reproduced — all inputs used in concrete witnesses
are plain absolute paths where the model agrees with Node).  JS string
primitives are modelled as executable functions over the character list of
a `String` (all paths involved are ASCII).
-/

namespace MediaUtils

/-! ## Model of JS string primitives -/

/-- Executable prefix test on character lists. -/
def listIsPre : List Char → List Char → Bool
  | [], _ => true
  | _ :: _, [] => false
  | a :: as, b :: bs => a = b && listIsPre as bs

/-- Model of JS `String.prototype.startsWith`. -/
def strStartsWith (s pre : String) : Bool := listIsPre pre.toList s.toList

/-- Model of JS `String.prototype.endsWith`. -/
def strEndsWith (s suf : String) : Bool := listIsPre suf.toList.reverse s.toList.reverse

/-- Drop the last `n` characters. -/
def strDropRight (s : String) (n : Nat) : String :=
  String.mk (s.toList.take (s.toList.length - n))

/-- Drop trailing `/` characters. -/
def dropRightSlashes (s : String) : String :=
  String.mk ((s.toList.reverse.dropWhile (fun c => c = '/')).reverse)

/-- ASCII lower-casing of one character. -/
def charLower (c : Char) : Char :=
  if 65 ≤ c.toNat ∧ c.toNat ≤ 90 then Char.ofNat (c.toNat + 32) else c

/-- Model of JS `String.prototype.toLowerCase` (ASCII inputs). -/
def strToLower (s : String) : String := String.mk (s.toList.map charLower)

/-- Model of JS `String.prototype.trim` (ASCII whitespace). -/
def strTrim (s : String) : String :=
  String.mk (((s.toList.dropWhile Char.isWhitespace).reverse.dropWhile
    Char.isWhitespace).reverse)

/-! ## Model of Node `path` (POSIX) -/

/-- Splitter on `/` over a character list, accumulating the current
segment reversed. -/
def splitOnSlash : List Char → List Char → List String
  | acc, [] => [String.mk acc.reverse]
  | acc, c :: rest =>
    if c = '/' then String.mk acc.reverse :: splitOnSlash [] rest
    else splitOnSlash (c :: acc) rest

/-- Split a path string on `/` (model of JS `split('/')`). -/
def splitPath (s : String) : List String := splitOnSlash [] s.toList

/-- Join segments back with `/`. -/
def joinSegs : List String → String
  | [] => ""
  | [s] => s
  | s :: rest => s ++ "/" ++ joinSegs rest

/-- Segment normalization for an absolute path: drop empty and `.`
segments, let `..` pop (at the root `..` is absorbed), as Node
`path.normalize` does for absolute paths. -/
def normStack : List String → List String → List String
  | stack, [] => stack.reverse
  | stack, s :: rest =>
    if s = "" || s = "." then normStack stack rest
    else if s = ".." then normStack stack.tail rest
    else normStack (s :: stack) rest

/-- Normalize an absolute POSIX path. -/
def normalizeAbs (p : String) : String :=
  "/" ++ joinSegs (normStack [] (splitPath p))

/-- Segment normalization for a relative path: `..` pops a real segment,
otherwise accumulates. -/
def normSegsRel : List String → List String → List String
  | stack, [] => stack.reverse
  | stack, s :: rest =>
    if s = "" || s = "." then normSegsRel stack rest
    else if s = ".." then
      match stack with
      | [] => normSegsRel [".."] rest
      | t :: ts => if t = ".." then normSegsRel (".." :: t :: ts) rest
                   else normSegsRel ts rest
    else normSegsRel (s :: stack) rest

/-- Model of `path.resolve(p)` before normalization: absolute paths stand,
relative paths are prefixed with the process working directory. -/
def resolveRaw (cwd p : String) : String :=
  if strStartsWith p "/" then p else cwd ++ "/" ++ p

/-- Model of `path.normalize(path.resolve(p))` as used by `isSafePath`
(the `cwd` is assumed absolute). -/
def resolveNormalize (cwd p : String) : String :=
  normalizeAbs (resolveRaw cwd p)

/-- Model of POSIX `path.basename(p)`: trailing separators ignored, last
segment returned (`basename "/" = ""` as in Node). -/
def basename (p : String) : String :=
  ((splitPath (dropRightSlashes p)).getLast?).getD ""

/-- Model of the two-argument POSIX `path.basename(p, ext)`: the suffix is
stripped only when it is a proper suffix of the basename. -/
def basenameSuffix (p ext : String) : String :=
  let b := basename p
  if ext ≠ "" ∧ ext ≠ b ∧ strEndsWith b ext = true then strDropRight b ext.toList.length
  else b

/-- Index of the last `.` in a character list, if any. -/
def lastDotIndex (cs : List Char) : Option Nat :=
  (((cs.enum).filter (fun x => x.2 = '.')).map (fun x => x.1)).getLast?

/-- Model of POSIX `path.extname(p)`: from the last `.` of the basename to
the end; empty when there is no dot or the only dot is the leading one
(dotfiles have no extension in Node). -/
def extname (p : String) : String :=
  let b := basename p
  match lastDotIndex b.toList with
  | none => ""
  | some 0 => ""
  | some i => String.mk (b.toList.drop i)

/-- Model of POSIX `path.dirname(p)`. -/
def dirname (p : String) : String :=
  let hasRoot := strStartsWith p "/"
  let q := dropRightSlashes p
  if q = "" then (if hasRoot then "/" else ".")
  else
    let cs := q.toList
    match ((cs.enum.filter (fun x => x.2 = '/')).map (fun x => x.1)).getLast? with
    | none => "."
    | some 0 => "/"
    | some j =>
      let d := dropRightSlashes (String.mk (cs.take j))
      if d = "" then "/" else d

/-- Model of two-argument POSIX `path.join(a, b)` (join with `/` and
normalize). -/
def pathJoin (a b : String) : String :=
  let j := if a = "" then b else if b = "" then a else a ++ "/" ++ b
  if j = "" then "."
  else if strStartsWith j "/" then normalizeAbs j
  else
    let r := joinSegs (normSegsRel [] (splitPath j))
    if r = "" then "." else r

/-! ## Model of the filesystem and of the external media libraries -/

/-- Filesystem state: regular files (with byte size) and directories.
`fs.mkdirSync` grows `dirs`; the thumbnail writer grows `files`. -/
structure World where
  files : List (String × Nat)
  dirs : List String
deriving Repr, DecidableEq

/-- Model of `fs.existsSync`. -/
def fsExistsSync (w : World) (p : String) : Bool :=
  w.files.any (fun f => f.1 = p) || w.dirs.any (fun d => d = p)

/-- Model of `fs.statSync(p).size`: succeeds exactly on regular files of
the world (a throwing `statSync` is an `Except.error`). -/
def statSizeSync (w : World) (p : String) : Except String Nat :=
  match w.files.find? (fun f => f.1 = p) with
  | some f => .ok f.2
  | none => .error ("ENOENT: no such file " ++ p)

/-- Chain of a directory and its ancestors (fuel-bounded walk up through
`dirname`). -/
def dirChain : Nat → String → List String
  | 0, p => [p]
  | n + 1, p =>
    let d := dirname p
    if d = p then [p] else p :: dirChain n d

/-- Model of `fs.mkdirSync(dir, { recursive: true })`: the directory and
all its ancestors come to exist. -/
def mkdirRecSync (w : World) (dir : String) : World :=
  { w with dirs := dirChain dir.toList.length dir ++ w.dirs }

/-- Image metadata as returned by `sharp(path).metadata()`. -/
structure ImageMeta where
  format : String
  hasAlpha : Bool
  width : Nat
  height : Nat
  density : Option Nat
deriving Repr, DecidableEq

/-- One ffprobe stream descriptor (only the fields the program reads). -/
structure FFStream where
  codec_type : String
  avg_frame_rate : Option String
deriving Repr, DecidableEq

/-- ffprobe format-level fields the program reads (raw strings, as
ffprobe reports them). -/
structure FFFormat where
  duration : Option String
  size : Option String
  bit_rate : Option String
deriving Repr, DecidableEq

/-- Full ffprobe result. -/
structure FFMeta where
  streams : List FFStream
  format : FFFormat
deriving Repr, DecidableEq

/-- The external-library environment: `sharp` metadata decoding, `ffprobe`
container probing, and the ffmpeg thumbnail pipeline (which on success
yields the filesystem state after the frame has been written). -/
structure Env where
  sharpMeta : World → String → Except String ImageMeta
  ffprobe : World → String → Except String FFMeta
  ffmpegThumb : World → String → String → Except String World

/-! ## PathGuard: `isSafePath` and `checkPath` -/

/-- The process-wide permitted directory list (`--permitted`) together
with the working directory `path.resolve` resolves against. -/
structure Config where
  permittedDirectories : List String
  cwd : String

/-- Translation of `isSafePath(pathToCheck)`: normalize-resolve the
candidate once, then accept iff it starts (raw string prefix) with the
normalize-resolved form of any permitted base.  The JS `try/catch` around
`startsWith` is dead code (`startsWith` does not throw) and is omitted. -/
def isSafePath (cfg : Config) (pathToCheck : String) : Bool :=
  let normalizedPath := resolveNormalize cfg.cwd pathToCheck
  cfg.permittedDirectories.any
    (fun basePath => strStartsWith normalizedPath (resolveNormalize cfg.cwd basePath))

/-- The JS error message of the existence failure (JS `String(e)` prefixes
`Error: ` uniformly to every message; the prefix is omitted everywhere
since it distinguishes nothing). -/
def errNotFound (p : String) : String := "Path does not exist: " ++ p

/-- The JS error message of the permission failure. -/
def errNotPermitted : String := "Path not allowed: Not in permitted directories"

/-- Translation of `checkPath(filePath)`: existence first, then the
permission check. -/
def checkPath (cfg : Config) (w : World) (filePath : String) : Except String Unit :=
  if fsExistsSync w filePath = false then .error (errNotFound filePath)
  else if isSafePath cfg filePath = false then .error errNotPermitted
  else .ok ()

/-! ## Theorems: C1 and C3 -/

/-- C1: `isSafePath` returns true iff the normalized absolute form of the
candidate starts, as a raw string prefix, with the normalized absolute
form of at least one permitted entry; with permitted root `/data/foo`,
candidate `/data/foobar` is permitted; with an empty permitted set every
candidate is rejected. -/
theorem isSafePath_prefix_spec :
    (∀ (cfg : Config) (p : String),
        isSafePath cfg p = true ↔
          ∃ b ∈ cfg.permittedDirectories,
            strStartsWith (resolveNormalize cfg.cwd p) (resolveNormalize cfg.cwd b) = true)
    ∧ isSafePath ⟨["/data/foo"], "/"⟩ "/data/foobar" = true
    ∧ (∀ (cwd p : String), isSafePath ⟨[], cwd⟩ p = false) := by
  refine ⟨?_, by decide, fun cwd p => rfl⟩
  intro cfg p
  simp [isSafePath, List.any_eq_true]

/-- C1 witness: the concrete clauses evaluated through the theorem. -/
theorem isSafePath_prefix_spec_witness :
    isSafePath ⟨["/data/foo"], "/"⟩ "/data/foobar" = true ∧
      isSafePath ⟨[], "/"⟩ "/etc/passwd" = false :=
  ⟨isSafePath_prefix_spec.2.1, isSafePath_prefix_spec.2.2 "/" "/etc/passwd"⟩

/-- C3 counterexample: the claim says every non-permitted path fails
`NotPermitted` regardless of existence, but a non-existent non-permitted
path fails with the `NotFound` error instead (existence is checked
first). -/
theorem checkPath_notfound_first :
    checkPath ⟨["/data"], "/"⟩ ⟨[], []⟩ "/etc/passwd"
        = .error (errNotFound "/etc/passwd")
      ∧ errNotFound "/etc/passwd" ≠ errNotPermitted
      ∧ isSafePath ⟨["/data"], "/"⟩ "/etc/passwd" = false := by
  refine ⟨rfl, by decide, by decide⟩

/-- C3 (amended): for every existing path not under any permitted root,
`checkPath` fails with the `NotPermitted` error; a non-existent path fails
with the `NotFound` error instead. -/
theorem checkPath_notPermitted (cfg : Config) (w : World) (p : String)
    (hex : fsExistsSync w p = true) (hsafe : isSafePath cfg p = false) :
    checkPath cfg w p = .error errNotPermitted := by
  simp [checkPath, hex, hsafe]

/-- C3 witness: an existing path outside the permitted roots fails with
the `NotPermitted` message. -/
theorem checkPath_notPermitted_witness :
    checkPath ⟨["/data"], "/"⟩ ⟨[("/etc/passwd", 1)], []⟩ "/etc/passwd"
      = .error errNotPermitted :=
  checkPath_notPermitted ⟨["/data"], "/"⟩ ⟨[("/etc/passwd", 1)], []⟩ "/etc/passwd"
    (by decide) (by decide)

/-! ## MediaClassifier: `detectMediaType` -/

/-- The source constant `IMAGE`. -/
def IMAGE : String := "IMAGE"

/-- The source constant `VIDEO`.  Note that `detectMediaType` and
`getVideoInfo` compare `stream.codec_type` against this upper-case
constant. -/
def VIDEO : String := "VIDEO"

/-- The source's image-extension pre-hint list. -/
def imageExtensions : List String :=
  [".jpg", ".jpeg", ".png", ".gif", ".webp", ".tiff", ".bmp", ".svg"]

/-- The source's video-extension pre-hint list. -/
def videoExtensions : List String :=
  [".mp4", ".mov", ".avi", ".mkv", ".webm", ".wmv", ".flv", ".m4v", ".3gp"]

/-- The metadata payload attached to a `MediaTypeR`: image metadata from
the image decoder, or the full ffprobe result. -/
inductive MetaPayload
  | image (m : ImageMeta)
  | probe (m : FFMeta)
deriving Repr, DecidableEq

/-- The mutable `mediaType` record built by `detectMediaType`. -/
structure MediaTypeR where
  type : String
  isVideo : Bool
  isImage : Bool
  message : Option String
  metadata : Option MetaPayload
deriving Repr, DecidableEq

/-- The extension-seeded initial `mediaType` record of `detectMediaType`
(lines 221–234 of the source). -/
def extSeed (filePath : String) : MediaTypeR :=
  let extension := strToLower (extname filePath)
  let base : MediaTypeR :=
    { type := "UNKNOWN", isVideo := false, isImage := false
      message := none, metadata := none }
  if imageExtensions.contains extension then
    { base with type := IMAGE, isImage := true }
  else if videoExtensions.contains extension then
    { base with type := VIDEO, isVideo := true }
  else base

/-- Translation of `detectMediaType(filePath)`.  The extension seeds
`type`/`isImage`/`isVideo`; then the content probes run: image decode
first (success returns at once), then the container probe.  Note that the
probe branches assign only their own boolean, leaving the seeded sibling
boolean in place, exactly as the source does.  The source's outer
`try/catch` guards only against the probe lambdas throwing, which the
model's total functions cannot, and is omitted. -/
def detectMediaType (env : Env) (cfg : Config) (w : World) (filePath : String) :
    Except String MediaTypeR := do
  let _ ← checkPath cfg w filePath
  let seeded := extSeed filePath
  match env.sharpMeta w filePath with
  | .ok imageMetadata =>
    return { seeded with type := IMAGE, isImage := true
                         metadata := some (.image imageMetadata) }
  | .error sharpErr =>
    match env.ffprobe w filePath with
    | .ok metadata =>
      if metadata.streams.any (fun stream => stream.codec_type = VIDEO) then
        return { seeded with type := VIDEO, isVideo := true
                             metadata := some (.probe metadata) }
      else
        return { seeded with type := "OTHER_MEDIA"
                             message := some "File is recognized by ffprobe but contains no video streams"
                             metadata := some (.probe metadata) }
    | .error probeErr =>
      return { seeded with type := "UNKNOWN"
                           message := some ("Unrecognized media: " ++ probeErr ++ ", " ++ sharpErr) }

/-- A world with one permitted file `/data/pic.mp4` (an image renamed to a
video extension). -/
def wMisnamed : World := ⟨[("/data/pic.mp4", 7)], ["/data"]⟩

/-- A concrete image metadata value. -/
def picMeta : ImageMeta := ⟨"jpeg", false, 640, 480, none⟩

/-- An environment whose image decoder accepts `/data/pic.mp4` (the file
content really is an image) and whose other probes always fail. -/
def envMisnamed : Env :=
  { sharpMeta := fun _ p => if p = "/data/pic.mp4" then .ok picMeta else .error "unsupported image format"
    ffprobe := fun _ _ => .error "ffprobe: invalid data"
    ffmpegThumb := fun _ _ _ => .error "ffmpeg failed" }

/-- The configuration permitting `/data`. -/
def cfgData : Config := ⟨["/data"], "/"⟩

/-- C2: the claimed invariant "at most one of `isImage`/`isVideo` is true"
fails on the code: for a file with a video extension whose content decodes
as an image, the extension pre-hint sets `isVideo := true` and the
image-decode success branch sets `isImage := true` without clearing it, so
the returned record has both booleans true (with tag `IMAGE`). -/
theorem detectMediaType_both_true :
    ∃ r, detectMediaType envMisnamed cfgData wMisnamed "/data/pic.mp4" = .ok r
      ∧ r.isImage = true ∧ r.isVideo = true ∧ r.type = IMAGE := by
  refine ⟨_, rfl, rfl, rfl, rfl⟩

/-- C4: whenever the image decoder succeeds on a validated path (however
the file is named, and even if the container probe would also recognize
it), `detectMediaType` returns tag `IMAGE` with `isImage = true` and the
decoded image metadata, and the result does not depend on the container
probe at all (the probe is never consulted). -/
theorem detectMediaType_image_short_circuit (env : Env) (cfg : Config) (w : World)
    (p : String) (m : ImageMeta)
    (hchk : checkPath cfg w p = .ok ())
    (hsharp : env.sharpMeta w p = .ok m) :
    (∃ r, detectMediaType env cfg w p = .ok r
        ∧ r.type = IMAGE ∧ r.isImage = true ∧ r.metadata = some (.image m))
    ∧ ∀ probe2 thumb2,
        detectMediaType { env with ffprobe := probe2, ffmpegThumb := thumb2 } cfg w p
          = detectMediaType env cfg w p := by
  constructor
  · have hres : detectMediaType env cfg w p =
        .ok { extSeed p with
                type := IMAGE, isImage := true, metadata := some (.image m) } := by
      simp [detectMediaType, hchk, hsharp]
    exact ⟨_, hres, rfl, rfl, rfl⟩
  · intro probe2 thumb2
    simp [detectMediaType, hchk, hsharp]

/-- C4 witness: a polyglot-style setup — the image decoder accepts the
file, the container probe (whatever it would say) is never consulted. -/
theorem detectMediaType_image_short_circuit_witness :
    (∃ r, detectMediaType envMisnamed cfgData wMisnamed "/data/pic.mp4" = .ok r
        ∧ r.type = IMAGE ∧ r.isImage = true ∧ r.metadata = some (.image picMeta))
    ∧ ∀ probe2 thumb2,
        detectMediaType { envMisnamed with ffprobe := probe2, ffmpegThumb := thumb2 }
            cfgData wMisnamed "/data/pic.mp4"
          = detectMediaType envMisnamed cfgData wMisnamed "/data/pic.mp4" :=
  detectMediaType_image_short_circuit envMisnamed cfgData wMisnamed "/data/pic.mp4"
    picMeta rfl rfl

/-! ## JS numbers: `parseInt`, `parseFloat`, `toFixed(2)` -/

/-- A JS number that matters to this program: `NaN` or a rational value
(IEEE doubles are modelled as exact rationals; no claim depends on
double rounding). -/
inductive JSNum
  | nan
  | num (q : ℚ)
deriving Repr, DecidableEq

/-- Decimal value of a digit list. -/
def digitsVal (ds : List Char) : Nat :=
  ds.foldl (fun n c => n * 10 + (c.toNat - 48)) 0

/-- Model of JS `parseInt(s)` (radix 10): trim, optional sign, longest
leading digit run; `none` models `NaN`.  The `0x` hex form is not
modelled (never produced by ffprobe fields). -/
def parseIntJS (s : String) : Option Int :=
  let cs := (strTrim s).toList
  let signed : Int × List Char :=
    match cs with
    | '-' :: r => (-1, r)
    | '+' :: r => (1, r)
    | r => (1, r)
  let ds := signed.2.takeWhile Char.isDigit
  if ds.isEmpty then none
  else some (signed.1 * (digitsVal ds : Int))

/-- Model of JS `parseFloat(s)`: trim, optional sign, digits with an
optional fraction; `nan` when no digit is found.  Exponent notation is
not modelled (never produced by ffprobe fields). -/
def parseFloatJS (s : String) : JSNum :=
  let cs := (strTrim s).toList
  let signed : ℚ × List Char :=
    match cs with
    | '-' :: r => (-1, r)
    | '+' :: r => (1, r)
    | r => (1, r)
  let intDs := signed.2.takeWhile Char.isDigit
  let rest := signed.2.drop intDs.length
  let fracDs :=
    match rest with
    | '.' :: r => r.takeWhile Char.isDigit
    | _ => []
  if intDs.isEmpty ∧ fracDs.isEmpty then .nan
  else .num (signed.1 * ((digitsVal intDs : ℚ) + (digitsVal fracDs : ℚ) / ((10 : ℚ) ^ fracDs.length)))

/-- Model of `parseFloat(x.toFixed(2))`: round to two decimal places. -/
def toFixed2 (q : ℚ) : ℚ := ((round (q * 100) : ℤ) : ℚ) / 100

/-- Model of the JS `a || b` idiom on an optional string field (`null`,
`undefined` and `""` are falsy). -/
def jsOr (v : Option String) (dflt : String) : String :=
  match v with
  | none => dflt
  | some s => if s = "" then dflt else s

/-! ## MetadataExtractor: `getVideoInfo` and `getImageInfo` -/

/-- Translation of the framerate computation of `getVideoInfo` (source
lines 344–355) applied to the first video stream's `avg_frame_rate`:
split on `/`; when there are exactly two parts and `parseInt(parts[1])`
is not the number `0` (`NaN !== 0` holds in JS), assign
`parseFloat((parseInt(parts[0]) / parseInt(parts[1])).toFixed(2))` —
which is `NaN` when either part has no digits; otherwise `framerate`
keeps its initial `null`. -/
def framerateOfAvg : Option String → Option JSNum
  | none => none
  | some s =>
    if s = "" then none
    else
      let framerateParts := splitPath s
      if framerateParts.length = 2 ∧ parseIntJS (framerateParts.getD 1 "") ≠ some 0 then
        match parseIntJS (framerateParts.getD 0 ""), parseIntJS (framerateParts.getD 1 "") with
        | some n, some d => some (.num (toFixed2 ((n : ℚ) / (d : ℚ))))
        | _, _ => some .nan
      else none

/-- The record resolved by `getVideoInfo`. -/
structure VideoInfoRecord where
  format : FFFormat
  video_streams : List FFStream
  audio_streams : List FFStream
  duration : JSNum
  size : Option Int
  bit_rate : Option Int
  framerate : Option JSNum
  path : String
deriving Repr, DecidableEq

/-- Translation of `getVideoInfo(videoPath)` (source lines 325–369).
Note the video-stream filter compares `codec_type` with the upper-case
constant `VIDEO`, exactly as the source does. -/
def getVideoInfo (env : Env) (cfg : Config) (w : World) (videoPath : String) :
    Except String VideoInfoRecord := do
  let _ ← checkPath cfg w videoPath
  match env.ffprobe w videoPath with
  | .error e => .error e
  | .ok metadata =>
    let videoStreams := metadata.streams.filter (fun stream => stream.codec_type = VIDEO)
    let audioStreams := metadata.streams.filter (fun stream => stream.codec_type = "audio")
    let formatInfo := metadata.format
    let framerate : Option JSNum :=
      match videoStreams.head? with
      | none => none
      | some videoStream => framerateOfAvg videoStream.avg_frame_rate
    return { format := formatInfo
             video_streams := videoStreams
             audio_streams := audioStreams
             duration := parseFloatJS (jsOr formatInfo.duration "0")
             size := parseIntJS (jsOr formatInfo.size "0")
             bit_rate := parseIntJS (jsOr formatInfo.bit_rate "0")
             framerate := framerate
             path := videoPath }

/-- The record returned by `getImageInfo`. -/
structure ImageInfoRecord where
  format : String
  mode : String
  width : Nat
  height : Nat
  resolution : Option (Nat × Nat)
  size : Nat
  filename : String
  path : String
deriving Repr, DecidableEq

/-- Translation of `getImageInfo(imagePath)` (source lines 301–322).  The
`metadata.density ? [d, d] : null` ternary treats a `0` density as falsy,
hence the explicit zero test. -/
def getImageInfo (env : Env) (cfg : Config) (w : World) (imagePath : String) :
    Except String ImageInfoRecord := do
  let _ ← checkPath cfg w imagePath
  match env.sharpMeta w imagePath with
  | .error e => .error e
  | .ok metadata =>
    match statSizeSync w imagePath with
    | .error e => .error e
    | .ok size =>
      return { format := metadata.format
               mode := if metadata.hasAlpha then "RGBA" else "RGB"
               width := metadata.width
               height := metadata.height
               resolution := match metadata.density with
                             | some d => if d = 0 then none else some (d, d)
                             | none => none
               size := size
               filename := basename imagePath
               path := imagePath }

/-! ## Theorems: C5 -/

/-- Helper: the numeric branch of the framerate computation. -/
lemma framerateOfAvg_compute (s : String) (n d : ℤ)
    (hn : parseIntJS ((splitPath s).getD 0 "") = some n)
    (hd : parseIntJS ((splitPath s).getD 1 "") = some d)
    (hlen : (splitPath s).length = 2) (hdz : d ≠ 0) :
    framerateOfAvg (some s) = some (.num (toFixed2 ((n : ℚ) / (d : ℚ)))) := by
  have hs : s ≠ "" := by
    intro h; subst h; simp [splitPath, splitOnSlash] at hlen
  have hguard : (splitPath s).length = 2 ∧
      parseIntJS ((splitPath s).getD 1 "") ≠ some 0 := by
    refine ⟨hlen, ?_⟩
    rw [hd]; simpa using hdz
  simp only [framerateOfAvg]
  rw [if_neg hs, if_pos hguard, hn, hd]

/-- Helper: without exactly two parts the framerate stays `null`. -/
lemma framerateOfAvg_badlen (s : String) (hlen : (splitPath s).length ≠ 2) :
    framerateOfAvg (some s) = none := by
  by_cases hs : s = ""
  · subst hs; rfl
  · have hng : ¬ ((splitPath s).length = 2 ∧
        parseIntJS ((splitPath s).getD 1 "") ≠ some 0) := fun h => hlen h.1
    simp only [framerateOfAvg]
    rw [if_neg hs, if_neg hng]

/-- Helper: a denominator parsing to `0` keeps the framerate `null`. -/
lemma framerateOfAvg_zeroden (s : String)
    (hd : parseIntJS ((splitPath s).getD 1 "") = some 0) :
    framerateOfAvg (some s) = none := by
  by_cases hs : s = ""
  · subst hs; rfl
  · have hng : ¬ ((splitPath s).length = 2 ∧
        parseIntJS ((splitPath s).getD 1 "") ≠ some 0) := fun h => h.2 hd
    simp only [framerateOfAvg]
    rw [if_neg hs, if_neg hng]

/-- C5 counterexample: the claim says that whenever the string does not
split into two numeric parts with a nonzero denominator the framerate is
left absent; but for `"5/x"` the guard `parts.length === 2 &&
parseInt(parts[1]) !== 0` passes (`NaN !== 0`), and the assigned value is
`NaN` — the field is set, not left absent. -/
theorem framerate_nan_not_absent :
    framerateOfAvg (some "5/x") = some JSNum.nan
      ∧ parseIntJS "x" = none
      ∧ some JSNum.nan ≠ (none : Option JSNum) := by
  refine ⟨by decide, by decide, by simp⟩

/-- C5 (amended): the framerate is the two-decimal rounding of
`parseInt(N) / parseInt(D)` exactly when the string splits on `/` into
two parts whose `parseInt` values are numbers with `D`-value nonzero;
with two parts, a nonzero (or `NaN`) `parseInt(D)` and a non-numeric
part the assigned value is `NaN` (serialized as `null`); otherwise the
framerate stays absent; never a throw, never a division by zero.
`"30000/1001"` gives `29.97`, `"0/0"` and `"30"` give absent.  The
`framerate` field of `getVideoInfo` is this computation applied to the
first ffprobe stream whose `codec_type` equals the constant `VIDEO`. -/
theorem getVideoInfo_framerate_spec :
    (∀ s n d, parseIntJS ((splitPath s).getD 0 "") = some n →
        parseIntJS ((splitPath s).getD 1 "") = some d →
        (splitPath s).length = 2 → d ≠ 0 →
        framerateOfAvg (some s) = some (.num (toFixed2 ((n : ℚ) / (d : ℚ)))))
    ∧ (∀ s, (splitPath s).length ≠ 2 → framerateOfAvg (some s) = none)
    ∧ (∀ s, parseIntJS ((splitPath s).getD 1 "") = some 0 →
        framerateOfAvg (some s) = none)
    ∧ framerateOfAvg (some "30000/1001") = some (.num ((2997 : ℚ) / 100))
    ∧ framerateOfAvg (some "0/0") = none
    ∧ framerateOfAvg (some "30") = none
    ∧ (∀ env cfg w p md r, env.ffprobe w p = .ok md →
        getVideoInfo env cfg w p = .ok r →
        r.framerate =
          match (md.streams.filter (fun stream => stream.codec_type = VIDEO)).head? with
          | none => none
          | some videoStream => framerateOfAvg videoStream.avg_frame_rate) := by
  refine ⟨fun s n d hn hd hlen hdz => framerateOfAvg_compute s n d hn hd hlen hdz,
    fun s hlen => framerateOfAvg_badlen s hlen,
    fun s hd => framerateOfAvg_zeroden s hd, ?_,
    framerateOfAvg_zeroden "0/0" (by decide),
    framerateOfAvg_badlen "30" (by decide), ?_⟩
  · have h := framerateOfAvg_compute "30000/1001" 30000 1001
      (by decide) (by decide) (by decide) (by decide)
    rw [h]
    have hval : toFixed2 (((30000 : ℤ) : ℚ) / ((1001 : ℤ) : ℚ)) = (2997 : ℚ) / 100 := by
      rw [toFixed2, round_eq]
      norm_num [Int.floor_eq_iff]
    rw [hval]
  · intro env cfg w p md r hprobe hres
    match hchk : checkPath cfg w p with
    | .error e =>
      simp only [getVideoInfo, hchk, bind, Except.bind] at hres
      exact Except.noConfusion hres
    | .ok u =>
      cases u
      simp only [getVideoInfo, hchk, bind, Except.bind, hprobe, pure, Except.pure] at hres
      cases hres
      rfl

/-! ## ThumbnailGenerator: `generateSmartThumbnail` -/

/-- The outcome record of a thumbnail generation: full metadata, or size
plus a note when the re-probe failed but the file exists. -/
inductive ThumbResult
  | withMeta (width height size : Nat)
  | sizeOnly (size : Nat) (note : String)
deriving Repr, DecidableEq

/-- The note attached when the written image's metadata cannot be read. -/
def thumbNote : String := "Image created but metadata could not be read"

/-- The rejection message when the output file does not exist after the
extraction reported success. -/
def errGenerationFailed : String := "Failed to generate image"

/-- Translation of `generateSmartThumbnail(videoPath, imagePath)` (source
lines 372–411).  The ffmpeg run either rejects (error event) or yields
the post-write world; then the written image is re-probed with the image
decoder and `statSync`.  A throw inside the `.then` callback (`statSync`)
lands in the `.catch` handler, hence the success branch requires both to
succeed.  In the `.catch` branch, when the file exists the size is read
again (a second `statSync` throw there would leave the JS promise
unsettled; the model returns its error — no claim touches that corner,
which requires a file that exists but cannot be stat'ed). -/
def generateSmartThumbnail (env : Env) (w : World) (videoPath imagePath : String) :
    World × Except String ThumbResult :=
  match env.ffmpegThumb w videoPath imagePath with
  | .error e => (w, .error e)
  | .ok w2 =>
    match env.sharpMeta w2 imagePath, statSizeSync w2 imagePath with
    | .ok metadata, .ok size => (w2, .ok (.withMeta metadata.width metadata.height size))
    | .ok _, .error _ | .error _, _ =>
      if fsExistsSync w2 imagePath then
        match statSizeSync w2 imagePath with
        | .ok size => (w2, .ok (.sizeOnly size thumbNote))
        | .error e => (w2, .error e)
      else (w2, .error errGenerationFailed)

/-! ## ToolFacade: the two batch tool handlers -/

/-- JS template-literal interpolation of a possibly-`null` string. -/
def jsNullStr : Option String → String
  | none => "null"
  | some s => s

/-- One entry of the `getMediaInfo` result list: an image info record
(serialized with `mediaType: "IMAGE"`, `success: true`), a video info
record (`mediaType: "VIDEO"`, `success: true`), or the catch-branch
failure record `{path, error, success: false, mediaType: "UNKNOWN"}`. -/
inductive MediaResult
  | image (info : ImageInfoRecord)
  | video (info : VideoInfoRecord)
  | failed (path error : String)
deriving Repr, DecidableEq

/-- The `success` flag of a `getMediaInfo` result entry. -/
def MediaResult.success : MediaResult → Bool
  | .failed _ _ => false
  | _ => true

/-- The body of one iteration of the `getMediaInfo` loop (source lines
71–98): the try block runs `checkPath`, `detectMediaType`, then the
`isImage`-first branch; any thrown error becomes a failure record
carrying this item's path. -/
def processMediaPath (env : Env) (cfg : Config) (w : World) (filePath : String) :
    MediaResult :=
  match checkPath cfg w filePath with
  | .error e => .failed filePath e
  | .ok _ =>
    match detectMediaType env cfg w filePath with
    | .error e => .failed filePath e
    | .ok mediaType =>
      if mediaType.isImage then
        match getImageInfo env cfg w filePath with
        | .ok info => .image info
        | .error e => .failed filePath e
      else if mediaType.isVideo then
        match getVideoInfo env cfg w filePath with
        | .ok info => .video info
        | .error e => .failed filePath e
      else
        .failed filePath
          ("File is not a supported media type: " ++ jsNullStr mediaType.message)

/-- Translation of the `getMediaInfo` tool handler loop: sequential,
one result pushed per input path (the reply then serializes the list). -/
def getMediaInfoHandler (env : Env) (cfg : Config) (w : World) :
    List String → List MediaResult
  | [] => []
  | filePath :: rest =>
    processMediaPath env cfg w filePath :: getMediaInfoHandler env cfg w rest

/-- One `generateImagesFromVideos` task. -/
structure GenItem where
  videoPath : String
  imagePath : String
deriving Repr, DecidableEq

/-- The output-path coercion of the `generateImagesFromVideos` handler
(source lines 132–142): if the lower-cased extension is not `.png`, the
extension is stripped and `.png` appended, in the same directory. -/
def coerceOutputPath (outputPath : String) : String :=
  let currentExt := strToLower (extname outputPath)
  if currentExt ≠ ".png" then
    pathJoin (dirname outputPath)
      (basenameSuffix outputPath (extname outputPath) ++ ".png")
  else outputPath

/-- One entry of the `generateImagesFromVideos` result list: a success
record (serialized with `format: "png"`, `success: true` and the thumbnail
fields) or the failure record `{videoPath, imagePath, error,
success: false}` carrying the *requested* image path. -/
inductive GenResultItem
  | ok (videoPath imagePath : String) (thumb : ThumbResult)
  | failed (videoPath imagePath error : String)
deriving Repr, DecidableEq

/-- The `videoPath` field of a result entry. -/
def GenResultItem.videoPath : GenResultItem → String
  | .ok v _ _ => v
  | .failed v _ _ => v

/-- The `success` flag of a result entry. -/
def GenResultItem.success : GenResultItem → Bool
  | .ok _ _ _ => true
  | .failed _ _ _ => false

/-- The body of one iteration of the `generateImagesFromVideos` loop
(source lines 120–172): validate the video, require `isVideo`, coerce the
output extension, create the output directory if absent, validate the
output directory, then run the thumbnail pipeline.  Any thrown error
becomes a failure record; the filesystem changes made before the throw
(directory creation, a written frame) persist. -/
def processGenItem (env : Env) (cfg : Config) (w : World) (item : GenItem) :
    World × GenResultItem :=
  match checkPath cfg w item.videoPath with
  | .error e => (w, .failed item.videoPath item.imagePath e)
  | .ok _ =>
    match detectMediaType env cfg w item.videoPath with
    | .error e => (w, .failed item.videoPath item.imagePath e)
    | .ok mediaType =>
      if mediaType.isVideo = false then
        (w, .failed item.videoPath item.imagePath
          ("File is not a video: " ++ jsOr mediaType.message "Invalid file type"))
      else
        let outputPath := coerceOutputPath item.imagePath
        let imageDir := dirname outputPath
        let w1 := if fsExistsSync w imageDir then w else mkdirRecSync w imageDir
        match checkPath cfg w1 imageDir with
        | .error e => (w1, .failed item.videoPath item.imagePath e)
        | .ok _ =>
          match generateSmartThumbnail env w1 item.videoPath outputPath with
          | (w2, .error e) => (w2, .failed item.videoPath item.imagePath e)
          | (w2, .ok thumb) => (w2, .ok item.videoPath outputPath thumb)

/-- Translation of the `generateImagesFromVideos` tool handler loop:
sequential, threading the filesystem state, one result pushed per item. -/
def generateImagesFromVideosHandler (env : Env) (cfg : Config) :
    World → List GenItem → World × List GenResultItem
  | w, [] => (w, [])
  | w, item :: rest =>
    let step := processGenItem env cfg w item
    let restRes := generateImagesFromVideosHandler env cfg step.1 rest
    (restRes.1, step.2 :: restRes.2)

/-! ## Shared concrete sample environment for witnesses -/

/-- Image metadata for the written thumbnail in the sample environment. -/
def pngMeta : ImageMeta := ⟨"png", true, 320, 240, none⟩

/-- An ffprobe result holding one stream whose `codec_type` is the
constant the program compares against, with a rational framerate. -/
def ffMetaSample : FFMeta :=
  ⟨[⟨"VIDEO", some "30000/1001"⟩, ⟨"audio", none⟩],
   ⟨some "10.5", some "1024", some "128000"⟩⟩

/-- A world with a permitted video `/data/v.mp4` and image
`/data/pic.jpg`. -/
def wVideo : World :=
  ⟨[("/data/v.mp4", 5), ("/data/pic.jpg", 7)], ["/data", "/"]⟩

/-- A sample environment: the image decoder accepts `/data/pic.jpg` and
any existing written `.png`; the prober recognizes `/data/v.mp4`; the
thumbnail pipeline writes a 99-byte file at the requested output path. -/
def envVideo : Env :=
  { sharpMeta := fun w p =>
      if p = "/data/pic.jpg" then .ok picMeta
      else if strEndsWith p ".png" && fsExistsSync w p then .ok pngMeta
      else .error "unsupported image format"
    ffprobe := fun _ p =>
      if p = "/data/v.mp4" then .ok ffMetaSample else .error "ffprobe could not read file"
    ffmpegThumb := fun w v o =>
      if v = "/data/v.mp4" then .ok { w with files := (o, 99) :: w.files }
      else .error "ffmpeg exited with an error" }

/-- The video info record `getVideoInfo` yields in the sample
environment. -/
def vinfoSample : VideoInfoRecord :=
  { format := ffMetaSample.format
    video_streams := [⟨"VIDEO", some "30000/1001"⟩]
    audio_streams := [⟨"audio", none⟩]
    duration := parseFloatJS (jsOr (some "10.5") "0")
    size := parseIntJS (jsOr (some "1024") "0")
    bit_rate := parseIntJS (jsOr (some "128000") "0")
    framerate := framerateOfAvg (some "30000/1001")
    path := "/data/v.mp4" }

/-- C5 witness: in the sample environment `getVideoInfo` resolves, the
framerate clause of the theorem applies to the concrete probe result, and
the computed clause gives `29.97` for `"30000/1001"`. -/
theorem getVideoInfo_framerate_spec_witness :
    getVideoInfo envVideo cfgData wVideo "/data/v.mp4" = .ok vinfoSample
      ∧ vinfoSample.framerate = some (.num ((2997 : ℚ) / 100)) := by
  have hres : getVideoInfo envVideo cfgData wVideo "/data/v.mp4" = .ok vinfoSample := rfl
  refine ⟨hres, ?_⟩
  have h1 := getVideoInfo_framerate_spec.2.2.2.2.2.2 envVideo cfgData wVideo
    "/data/v.mp4" ffMetaSample vinfoSample rfl hres
  rw [h1]
  exact getVideoInfo_framerate_spec.2.2.2.1

/-! ## Theorems: C7 -/

/-- Helper: a successful `statSync` implies the file exists. -/
lemma fsExists_of_statSize (w : World) (p : String) (sz : Nat)
    (h : statSizeSync w p = .ok sz) : fsExistsSync w p = true := by
  unfold statSizeSync at h
  match hf : w.files.find? (fun f => f.1 = p) with
  | none => rw [hf] at h; exact Except.noConfusion h
  | some f =>
    have hmem := List.mem_of_find?_eq_some hf
    have hp := List.find?_some hf
    have hany : w.files.any (fun f => f.1 = p) = true :=
      List.any_eq_true.mpr ⟨f, hmem, hp⟩
    simp [fsExistsSync, hany]

/-- Helper: `statSync` on a non-existent path throws. -/
lemma statSize_error_of_not_exists (w : World) (p : String)
    (h : fsExistsSync w p = false) : ∃ e, statSizeSync w p = .error e := by
  unfold statSizeSync
  match hf : w.files.find? (fun f => f.1 = p) with
  | none => exact ⟨_, by rw [hf]⟩
  | some f =>
    exfalso
    have hmem := List.mem_of_find?_eq_some hf
    have hp := List.find?_some hf
    have hany : w.files.any (fun f => f.1 = p) = true :=
      List.any_eq_true.mpr ⟨f, hmem, hp⟩
    simp [fsExistsSync, hany] at h

/-- C7: after the frame extraction reports success (yielding filesystem
state `w2`): a failed metadata re-probe with the output file present still
succeeds with the size and the could-not-read note; a missing output file
fails with the generation-failed error; a successful re-probe yields
width, height and size. -/
theorem generateSmartThumbnail_reprobe (env : Env) (w : World) (v ip : String)
    (w2 : World) (hff : env.ffmpegThumb w v ip = .ok w2) :
    (∀ e sz, env.sharpMeta w2 ip = .error e → statSizeSync w2 ip = .ok sz →
        generateSmartThumbnail env w v ip = (w2, .ok (.sizeOnly sz thumbNote)))
    ∧ (fsExistsSync w2 ip = false →
        generateSmartThumbnail env w v ip = (w2, .error errGenerationFailed))
    ∧ (∀ m sz, env.sharpMeta w2 ip = .ok m → statSizeSync w2 ip = .ok sz →
        generateSmartThumbnail env w v ip = (w2, .ok (.withMeta m.width m.height sz))) := by
  refine ⟨?_, ?_, ?_⟩
  · intro e sz hsharp hstat
    have hex := fsExists_of_statSize w2 ip sz hstat
    simp [generateSmartThumbnail, hff, hsharp, hstat, hex]
  · intro hex
    obtain ⟨e2, hstat⟩ := statSize_error_of_not_exists w2 ip hex
    match hsharp : env.sharpMeta w2 ip with
    | .ok m => simp [generateSmartThumbnail, hff, hsharp, hstat, hex]
    | .error e => simp [generateSmartThumbnail, hff, hsharp, hstat, hex]
  · intro m sz hsharp hstat
    simp [generateSmartThumbnail, hff, hsharp, hstat]

/-- An environment whose image decoder always fails (so the thumbnail
re-probe cannot read metadata), with the sample prober and writer. -/
def envThumbPlain : Env :=
  { sharpMeta := fun _ _ => .error "metadata read failed"
    ffprobe := envVideo.ffprobe
    ffmpegThumb := envVideo.ffmpegThumb }

/-- The sample world after the thumbnail writer has produced
`/data/out.png`. -/
def wThumbOut : World := { wVideo with files := ("/data/out.png", 99) :: wVideo.files }

/-- C7 witness: the written file exists but its metadata cannot be read —
the operation still succeeds with size and note. -/
theorem generateSmartThumbnail_reprobe_witness :
    generateSmartThumbnail envThumbPlain wVideo "/data/v.mp4" "/data/out.png"
      = (wThumbOut, .ok (.sizeOnly 99 thumbNote)) :=
  (generateSmartThumbnail_reprobe envThumbPlain wVideo "/data/v.mp4" "/data/out.png"
    wThumbOut rfl).1 "metadata read failed" 99 rfl rfl

/-! ## Theorems: C6 -/

/-- Helper: each `getMediaInfo` item yields a success record or a failure
record carrying that item's path. -/
lemma processMediaPath_shape (env : Env) (cfg : Config) (w : World) (p : String) :
    (processMediaPath env cfg w p).success = true
      ∨ ∃ e, processMediaPath env cfg w p = .failed p e := by
  unfold processMediaPath
  split
  · exact Or.inr ⟨_, rfl⟩
  · split
    · exact Or.inr ⟨_, rfl⟩
    · split
      · split
        · exact Or.inl rfl
        · exact Or.inr ⟨_, rfl⟩
      · split
        · split
          · exact Or.inl rfl
          · exact Or.inr ⟨_, rfl⟩
        · exact Or.inr ⟨_, rfl⟩

/-- Helper: each `generateImagesFromVideos` item yields a success record
at the coerced output path, or a failure record with the requested
paths. -/
lemma processGenItem_shape (env : Env) (cfg : Config) (w : World) (item : GenItem) :
    (∃ t, (processGenItem env cfg w item).2
        = .ok item.videoPath (coerceOutputPath item.imagePath) t)
      ∨ ∃ e, (processGenItem env cfg w item).2
          = .failed item.videoPath item.imagePath e := by
  unfold processGenItem
  split
  · exact Or.inr ⟨_, rfl⟩
  · split
    · exact Or.inr ⟨_, rfl⟩
    · split
      · exact Or.inr ⟨_, rfl⟩
      · dsimp only
        split
        · exact Or.inr ⟨_, rfl⟩
        · split
          · exact Or.inr ⟨_, rfl⟩
          · exact Or.inl ⟨_, rfl⟩

/-- C6: both batch handlers process their items sequentially and
independently: the `getMediaInfo` result list has one entry per input in
order (splitting over concatenation, entry `i` computed from input `i`
alone) and every entry is a success record or a failure record with the
item's path; the `generateImagesFromVideos` result list likewise has one
entry per item, entry `i` being the processing of item `i` at the
filesystem state reached after the previous items, hence a failure never
stops the remaining items; a concrete mixed batch shows the first item
failing (not a video) and the second still succeeding. -/
theorem batch_handlers_per_item :
    (∀ env cfg w paths,
        (getMediaInfoHandler env cfg w paths).length = paths.length)
    ∧ (∀ env cfg w xs ys,
        getMediaInfoHandler env cfg w (xs ++ ys)
          = getMediaInfoHandler env cfg w xs ++ getMediaInfoHandler env cfg w ys)
    ∧ (∀ env cfg w paths i, i < paths.length →
        (getMediaInfoHandler env cfg w paths).getD i (.failed "" "")
          = processMediaPath env cfg w (paths.getD i ""))
    ∧ (∀ env cfg w paths r, r ∈ getMediaInfoHandler env cfg w paths →
        r.success = true ∨ ∃ p e, p ∈ paths ∧ r = .failed p e)
    ∧ (∀ env cfg w items,
        ((generateImagesFromVideosHandler env cfg w items).2).length = items.length)
    ∧ (∀ env cfg w items i, i < items.length →
        ∃ wmid, ((generateImagesFromVideosHandler env cfg w items).2).getD i
            (.failed "" "" "")
          = (processGenItem env cfg wmid (items.getD i ⟨"", ""⟩)).2)
    ∧ (∀ env cfg w item,
        (∃ t, (processGenItem env cfg w item).2
            = .ok item.videoPath (coerceOutputPath item.imagePath) t)
          ∨ ∃ e, (processGenItem env cfg w item).2
              = .failed item.videoPath item.imagePath e) := by
  refine ⟨?_, ?_, ?_, ?_, ?_, ?_, fun env cfg w item => processGenItem_shape env cfg w item⟩
  · intro env cfg w paths
    induction paths with
    | nil => rfl
    | cons p rest ih => simp [getMediaInfoHandler, ih]
  · intro env cfg w xs ys
    induction xs with
    | nil => rfl
    | cons p rest ih => simp [getMediaInfoHandler, ih]
  · intro env cfg w paths i hi
    induction paths generalizing i with
    | nil => simp at hi
    | cons p rest ih =>
      cases i with
      | zero => rfl
      | succ j =>
        have hj : j < rest.length := by simpa using hi
        simpa [getMediaInfoHandler] using ih j hj
  · intro env cfg w paths r hr
    induction paths with
    | nil => simp [getMediaInfoHandler] at hr
    | cons p rest ih =>
      rcases List.mem_cons.mp hr with h | h
      · subst h
        rcases processMediaPath_shape env cfg w p with hs | ⟨e, he⟩
        · exact Or.inl hs
        · exact Or.inr ⟨p, e, List.mem_cons_self p rest, he⟩
      · rcases ih h with hs | ⟨q, e, hq, he⟩
        · exact Or.inl hs
        · exact Or.inr ⟨q, e, List.mem_cons_of_mem p hq, he⟩
  · intro env cfg w items
    induction items generalizing w with
    | nil => rfl
    | cons item rest ih => simp [generateImagesFromVideosHandler, ih]
  · intro env cfg w items i hi
    induction items generalizing w i with
    | nil => simp at hi
    | cons item rest ih =>
      cases i with
      | zero => exact ⟨w, rfl⟩
      | succ j =>
        have hj : j < rest.length := by simpa using hi
        obtain ⟨wmid, hmid⟩ := ih (processGenItem env cfg w item).1 j hj
        exact ⟨wmid, by simpa [generateImagesFromVideosHandler] using hmid⟩

/-- The mixed-batch item whose input is an image, not a video. -/
def itemBad : GenItem := ⟨"/data/pic.jpg", "/data/a.jpg"⟩

/-- The mixed-batch item with a genuine video input. -/
def itemGood : GenItem := ⟨"/data/v.mp4", "/data/b.jpg"⟩

/-- The sample world after the good item's thumbnail has been written. -/
def wAfterGood : World := { wVideo with files := ("/data/b.png", 99) :: wVideo.files }

/-- C6 witness: per-item clauses of the theorem applied to a concrete
two-item batch, plus the concrete evaluation showing the first item
failing and the second succeeding anyway. -/
theorem batch_handlers_per_item_witness :
    (getMediaInfoHandler envVideo cfgData wVideo ["/data/pic.jpg", "/data/zzz"]).getD 1
        (.failed "" "")
      = processMediaPath envVideo cfgData wVideo "/data/zzz"
    ∧ ((generateImagesFromVideosHandler envVideo cfgData wVideo
          [itemBad, itemGood]).2).length = 2
    ∧ generateImagesFromVideosHandler envVideo cfgData wVideo [itemBad, itemGood]
      = (wAfterGood,
         [.failed "/data/pic.jpg" "/data/a.jpg" "File is not a video: Invalid file type",
          .ok "/data/v.mp4" "/data/b.png" (.withMeta 320 240 99)]) :=
  ⟨batch_handlers_per_item.2.2.1 envVideo cfgData wVideo ["/data/pic.jpg", "/data/zzz"]
      1 (by decide),
   batch_handlers_per_item.2.2.2.2.1 envVideo cfgData wVideo [itemBad, itemGood],
   rfl⟩

/-! ## Path lemmas for the output-extension coercion (C8) -/

/-- Helper: the prefix test decides list prefixes. -/
lemma listIsPre_iff : ∀ (l₁ l₂ : List Char), listIsPre l₁ l₂ = true ↔ l₁ <+: l₂
  | [], l₂ => by simp [listIsPre]
  | _ :: _, [] => by simp [listIsPre]
  | a :: as, b :: bs => by
    rw [List.cons_prefix_cons]
    show (decide (a = b) && listIsPre as bs) = true ↔ _
    rw [Bool.and_eq_true, listIsPre_iff as bs, decide_eq_true_eq]

/-- Helper: a suffix at the character level makes `strEndsWith` true. -/
lemma strEndsWith_of_suffix (x s : String) (h : s.toList <:+ x.toList) :
    strEndsWith x s = true := by
  unfold strEndsWith
  refine (listIsPre_iff _ _).mpr ?_
  rw [← List.reverse_reverse s.toList, ← List.reverse_reverse x.toList] at h
  exact List.reverse_suffix.mp h

/-- Helper: `String.mk` then `toList` is the identity. -/
lemma mk_toList (cs : List Char) : (String.mk cs).toList = cs := rfl

/-- Helper: an empty character list means the empty string. -/
lemma toList_nil_eq (s : String) (h : s.toList = []) : s = "" := by
  cases s with
  | mk data => cases h; rfl

/-- Helper: string append concatenates the character lists. -/
lemma toList_append (a b : String) : (a ++ b).toList = a.toList ++ b.toList := by
  cases a; cases b; rfl

/-- Helper: a true `startsWith "/"` puts `/` among the characters. -/
lemma startsWith_slash_mem (s : String) (h : strStartsWith s "/" = true) :
    ('/' : Char) ∈ s.toList := by
  unfold strStartsWith at h
  obtain ⟨t, ht⟩ := (listIsPre_iff _ _).mp h
  rw [← ht]
  simp [show ("/" : String).toList = ['/'] from rfl]

/-- Helper: the splitter distributes over a separator occurrence. -/
lemma splitOnSlash_append (cs ds : List Char) :
    ∀ acc, splitOnSlash acc (cs ++ '/' :: ds)
      = splitOnSlash acc cs ++ splitOnSlash [] ds := by
  induction cs with
  | nil =>
    intro acc
    rw [List.nil_append]
    show splitOnSlash acc ('/' :: ds) = splitOnSlash acc [] ++ splitOnSlash [] ds
    simp only [splitOnSlash, if_pos]
    rfl
  | cons c cs ih =>
    intro acc
    rw [List.cons_append]
    simp only [splitOnSlash]
    by_cases hc : c = '/'
    · rw [if_pos hc, if_pos hc, ih []]
      rfl
    · rw [if_neg hc, if_neg hc]
      exact ih (c :: acc)

/-- Helper: splitting a separator-free tail yields one segment. -/
lemma splitOnSlash_no_slash (cs : List Char) :
    ∀ acc, ('/' : Char) ∉ cs →
      splitOnSlash acc cs = [String.mk (acc.reverse ++ cs)] := by
  induction cs with
  | nil => intro acc _; simp [splitOnSlash]
  | cons c cs ih =>
    intro acc h
    have hc : ¬ c = '/' := by
      intro hh; exact h (by simp [hh])
    have hrest : ('/' : Char) ∉ cs := fun hm => h (List.mem_cons_of_mem _ hm)
    rw [splitOnSlash, if_neg hc, ih (c :: acc) hrest]
    simp

/-- Helper: a slash-free string is a single segment. -/
lemma splitPath_single (s : String) (h : ('/' : Char) ∉ s.toList) :
    splitPath s = [s] := by
  unfold splitPath
  rw [splitOnSlash_no_slash _ _ h]
  simp only [List.reverse_nil, List.nil_append]
  cases s; rfl

/-- Helper: appending `"/" ++ s` with `s` slash-free appends one
segment. -/
lemma splitPath_append_seg (a s : String) (h : ('/' : Char) ∉ s.toList) :
    splitPath (a ++ "/" ++ s) = splitPath a ++ [s] := by
  unfold splitPath
  have hdata : (a ++ "/" ++ s).toList = a.toList ++ '/' :: s.toList := by
    rw [toList_append, toList_append]
    simp [show ("/" : String).toList = ['/'] from rfl]
  rw [hdata, splitOnSlash_append, splitOnSlash_no_slash _ _ h]
  simp only [List.reverse_nil, List.nil_append]
  cases s; rfl

/-- Helper: the absolute normalizer carries a final proper segment
through. -/
lemma normStack_push (l : List String) (s : String)
    (h0 : s ≠ "") (h1 : s ≠ ".") (h2 : s ≠ "..") :
    ∀ st, normStack st (l ++ [s]) = normStack st l ++ [s] := by
  induction l with
  | nil =>
    intro st
    simp [normStack, h0, h1, h2]
  | cons x l ih =>
    intro st
    simp only [List.cons_append, normStack]
    split_ifs <;> exact ih _

/-- Helper: the relative normalizer carries a final proper segment
through. -/
lemma normSegsRel_push (l : List String) (s : String)
    (h0 : s ≠ "") (h1 : s ≠ ".") (h2 : s ≠ "..") :
    ∀ st, normSegsRel st (l ++ [s]) = normSegsRel st l ++ [s] := by
  induction l with
  | nil => intro st; simp [normSegsRel, h0, h1, h2]
  | cons x l ih =>
    intro st
    simp only [List.cons_append, normSegsRel]
    split_ifs
    · exact ih _
    · cases st with
      | nil => exact ih _
      | cons t ts =>
        dsimp only
        by_cases ht : t = ".."
        · rw [if_pos ht, if_pos ht]; exact ih _
        · rw [if_neg ht, if_neg ht]; exact ih _
    · exact ih _

/-- Helper: the join of a nonempty tail. -/
lemma joinSegs_cons (x : String) (l : List String) (h : l ≠ []) :
    joinSegs (x :: l) = x ++ "/" ++ joinSegs l := by
  cases l with
  | nil => exact absurd rfl h
  | cons y ys => rfl

/-- Helper: the final segment is a character-level suffix of the join. -/
lemma suffix_joinSegs (L : List String) (s : String) :
    s.toList <:+ (joinSegs (L ++ [s])).toList := by
  induction L with
  | nil => simp [joinSegs]
  | cons x L ih =>
    have hne : L ++ [s] ≠ [] := by simp
    rw [List.cons_append, joinSegs_cons x _ hne, toList_append]
    exact ih.trans (List.suffix_append _ _)

/-- Helper: every segment produced by the splitter is slash-free. -/
lemma splitOnSlash_mem_no_slash :
    ∀ (cs acc : List Char) (x : String), ('/' : Char) ∉ acc →
      x ∈ splitOnSlash acc cs → ('/' : Char) ∉ x.toList := by
  intro cs
  induction cs with
  | nil =>
    intro acc x hacc hx
    simp only [splitOnSlash, List.mem_singleton] at hx
    subst hx
    rw [mk_toList]
    intro hc
    exact hacc (List.mem_reverse.mp hc)
  | cons c cs ih =>
    intro acc x hacc hx
    by_cases hc : c = '/'
    · subst hc
      rw [splitOnSlash, if_pos rfl] at hx
      rcases List.mem_cons.mp hx with h | h
      · subst h
        rw [mk_toList]
        intro hm
        exact hacc (List.mem_reverse.mp hm)
      · exact ih [] x (by simp) h
    · rw [splitOnSlash, if_neg hc] at hx
      refine ih (c :: acc) x ?_ hx
      intro hm
      rcases List.mem_cons.mp hm with h | h
      · exact hc h.symm
      · exact hacc h

/-- Helper: a basename contains no separator. -/
lemma basename_no_slash (p : String) : ('/' : Char) ∉ (basename p).toList := by
  unfold basename
  match hL : (splitPath (dropRightSlashes p)).getLast? with
  | none => simp
  | some x =>
    have hmem : x ∈ splitPath (dropRightSlashes p) := List.mem_of_mem_getLast? hL
    simp only [Option.getD_some]
    exact splitOnSlash_mem_no_slash _ [] x (by simp) hmem

/-- Helper: the suffix-stripping basename contains no separator. -/
lemma basenameSuffix_no_slash (p ext : String) :
    ('/' : Char) ∉ (basenameSuffix p ext).toList := by
  unfold basenameSuffix
  dsimp only
  split_ifs with h
  · intro hm
    rw [strDropRight, mk_toList] at hm
    exact basename_no_slash p (List.mem_of_mem_take hm)
  · exact basename_no_slash p

/-- Helper: appending `.png` never yields an empty or dot segment. -/
lemma append_png_ne (b : String) :
    b ++ ".png" ≠ "" ∧ b ++ ".png" ≠ "." ∧ b ++ ".png" ≠ ".." := by
  refine ⟨?_, ?_, ?_⟩ <;>
  · intro h
    have hlen := congrArg (fun s => s.toList.length) h
    simp only [toList_append, List.length_append] at hlen
    simp [show (".png" : String).toList = ['.', 'p', 'n', 'g'] from rfl] at hlen

/-- Helper: joining a proper slash-free final segment keeps it as a
character-level suffix of the joined path. -/
lemma pathJoin_suffix (a s : String) (hs : ('/' : Char) ∉ s.toList)
    (h0 : s ≠ "") (h1 : s ≠ ".") (h2 : s ≠ "..") :
    s.toList <:+ (pathJoin a s).toList := by
  have hsingle : normSegsRel [] (splitPath s) = [s] := by
    rw [splitPath_single s hs]
    simpa using normSegsRel_push [] s h0 h1 h2 []
  by_cases ha : a = ""
  · subst ha
    have hj : pathJoin "" s = s := by
      unfold pathJoin
      rw [if_pos rfl, if_neg h0]
      have hst : strStartsWith s "/" = false := by
        cases hval : strStartsWith s "/" with
        | false => rfl
        | true => exact absurd (startsWith_slash_mem s hval) hs
      rw [hst]
      simp only [Bool.false_eq_true, if_false, hsingle, joinSegs, if_neg h0]
    rw [hj]
  · have hjdef : (if a = "" then s else if s = "" then a else a ++ "/" ++ s)
        = a ++ "/" ++ s := by rw [if_neg ha, if_neg h0]
    have hjne : a ++ "/" ++ s ≠ "" := by
      intro h
      have := congrArg String.toList h
      rw [toList_append, toList_append] at this
      simp [show ("/" : String).toList = ['/'] from rfl] at this
    have hsplit : splitPath (a ++ "/" ++ s) = splitPath a ++ [s] :=
      splitPath_append_seg a s hs
    unfold pathJoin
    rw [hjdef, if_neg hjne]
    by_cases habs : strStartsWith (a ++ "/" ++ s) "/" = true
    · rw [habs]
      simp only [if_true]
      unfold normalizeAbs
      rw [hsplit, normStack_push _ s h0 h1 h2, toList_append]
      exact (suffix_joinSegs _ s).trans (List.suffix_append _ _)
    · rw [Bool.not_eq_true] at habs
      rw [habs]
      simp only [Bool.false_eq_true, if_false]
      rw [hsplit, normSegsRel_push _ s h0 h1 h2]
      have hsuf : s.toList <:+ (joinSegs (normSegsRel [] (splitPath a) ++ [s])).toList :=
        suffix_joinSegs _ s
      have hrne : joinSegs (normSegsRel [] (splitPath a) ++ [s]) ≠ "" := by
        intro h
        rw [h] at hsuf
        obtain ⟨t, ht⟩ := hsuf
        have hnil : s.toList = [] := (List.append_eq_nil.mp ht).2
        exact h0 (toList_nil_eq s hnil)
      rw [if_neg hrne]
      exact hsuf

/-! ## Theorems: C8 -/

/-- C8: when the requested image path's lower-cased extension is not
`.png`, the output path actually used is the join of the same directory
with the extension-stripped basename plus `.png`, and it ends in `.png`;
a path whose extension already lower-cases to `.png` is used unchanged;
and every successful `generateImagesFromVideos` item reports exactly the
coerced output path (with its own video path). -/
theorem coerceOutputPath_spec :
    (∀ p, strToLower (extname p) ≠ ".png" →
        coerceOutputPath p
            = pathJoin (dirname p) (basenameSuffix p (extname p) ++ ".png")
          ∧ strEndsWith (coerceOutputPath p) ".png" = true)
    ∧ (∀ p, strToLower (extname p) = ".png" → coerceOutputPath p = p)
    ∧ (∀ env cfg w item w2 vp ip t,
        processGenItem env cfg w item = (w2, .ok vp ip t) →
          vp = item.videoPath ∧ ip = coerceOutputPath item.imagePath) := by
  refine ⟨?_, ?_, ?_⟩
  · intro p hne
    have heq : coerceOutputPath p
        = pathJoin (dirname p) (basenameSuffix p (extname p) ++ ".png") := by
      simp [coerceOutputPath, hne]
    refine ⟨heq, ?_⟩
    rw [heq]
    obtain ⟨h0, h1, h2⟩ := append_png_ne (basenameSuffix p (extname p))
    have hs : ('/' : Char) ∉ (basenameSuffix p (extname p) ++ ".png").toList := by
      rw [toList_append]
      intro hm
      rcases List.mem_append.mp hm with h | h
      · exact basenameSuffix_no_slash p (extname p) h
      · simp [show (".png" : String).toList = ['.', 'p', 'n', 'g'] from rfl] at h
    have hsub : (".png" : String).toList
        <:+ (basenameSuffix p (extname p) ++ ".png").toList := by
      rw [toList_append]; exact List.suffix_append _ _
    exact strEndsWith_of_suffix _ _
      (hsub.trans (pathJoin_suffix _ _ hs h0 h1 h2))
  · intro p hpe
    simp [coerceOutputPath, hpe]
  · intro env cfg w item w2 vp ip t hres
    rcases processGenItem_shape env cfg w item with ⟨t2, hok⟩ | ⟨e, hbad⟩
    · rw [hres] at hok
      injection hok with hv hip ht2
      exact ⟨hv, hip⟩
    · rw [hres] at hbad
      exact GenResultItem.noConfusion hbad

/-- C8 witness: a `.jpg` request is renamed to `.png` in the same
directory, the coerced path ends in `.png`, and the concrete successful
item reports the renamed path. -/
theorem coerceOutputPath_spec_witness :
    coerceOutputPath "/data/b.jpg"
        = pathJoin (dirname "/data/b.jpg")
            (basenameSuffix "/data/b.jpg" (extname "/data/b.jpg") ++ ".png")
      ∧ strEndsWith (coerceOutputPath "/data/b.jpg") ".png" = true
      ∧ ("/data/v.mp4" = itemGood.videoPath
          ∧ "/data/b.png" = coerceOutputPath itemGood.imagePath) :=
  ⟨(coerceOutputPath_spec.1 "/data/b.jpg" (by decide)).1,
   (coerceOutputPath_spec.1 "/data/b.jpg" (by decide)).2,
   coerceOutputPath_spec.2.2 envVideo cfgData wVideo itemGood wAfterGood
     "/data/v.mp4" "/data/b.png" (.withMeta 320 240 99) rfl⟩

/-! ## Theorems: C9 and C10 -/

/-- Helper: an existing but unpermitted path fails the guard with the
`NotPermitted` message. -/
lemma checkPath_unsafe (cfg : Config) (w : World) (p : String)
    (hex : fsExistsSync w p = true) (hsafe : isSafePath cfg p = false) :
    checkPath cfg w p = .error errNotPermitted := by
  simp [checkPath, hex, hsafe]

/-- Helper: after a recursive `mkdir`, the directory exists. -/
lemma fsExists_mkdir_self (w : World) (d : String) :
    fsExistsSync (mkdirRecSync w d) d = true := by
  have hmem : d ∈ dirChain d.toList.length d := by
    cases h : d.toList.length with
    | zero => simp [dirChain]
    | succ n =>
      simp only [dirChain]
      split
      · simp
      · simp
  have hmem2 : d ∈ (mkdirRecSync w d).dirs := by
    unfold mkdirRecSync
    exact List.mem_append_left _ hmem
  have hany : (mkdirRecSync w d).dirs.any (fun dd => dd = d) = true :=
    List.any_eq_true.mpr ⟨d, hmem2, by simp⟩
  simp [fsExistsSync, hany]

/-- Helper: a recursive `mkdir` does not change the file set. -/
lemma files_mkdir (w : World) (d : String) : (mkdirRecSync w d).files = w.files := rfl

/-- C9: the output directory of a `generateImagesFromVideos` item is
validated against the permitted roots after being created: whenever the
directory of the coerced output path is not permitted, no file is ever
written by the item (the thumbnail pipeline is never reached), and — for
a valid permitted video input — the item fails with the `NotPermitted`
error. -/
theorem genItem_outdir_guard (env : Env) (cfg : Config) (w : World) (item : GenItem) :
    (isSafePath cfg (dirname (coerceOutputPath item.imagePath)) = false →
        (processGenItem env cfg w item).1.files = w.files)
    ∧ (∀ mt, checkPath cfg w item.videoPath = .ok () →
        detectMediaType env cfg w item.videoPath = .ok mt →
        mt.isVideo = true →
        isSafePath cfg (dirname (coerceOutputPath item.imagePath)) = false →
        (processGenItem env cfg w item).2
          = .failed item.videoPath item.imagePath errNotPermitted) := by
  constructor
  · intro hsafe
    unfold processGenItem
    split
    · rfl
    · split
      · rfl
      · split
        · rfl
        · dsimp only
          by_cases hex : fsExistsSync w (dirname (coerceOutputPath item.imagePath)) = true
          · rw [if_pos hex, checkPath_unsafe cfg w _ hex hsafe]
          · rw [if_neg hex,
              checkPath_unsafe cfg _ _
                (fsExists_mkdir_self w (dirname (coerceOutputPath item.imagePath))) hsafe]
            exact files_mkdir w _
  · intro mt hchk hdet hmt hsafe
    by_cases hex : fsExistsSync w (dirname (coerceOutputPath item.imagePath)) = true
    · simp only [processGenItem, hchk, hdet, hmt, Bool.true_eq_false, if_false,
        if_pos hex, checkPath_unsafe cfg w _ hex hsafe]
    · simp only [processGenItem, hchk, hdet, hmt, Bool.true_eq_false, if_false,
        if_neg hex,
        checkPath_unsafe cfg _ _
          (fsExists_mkdir_self w (dirname (coerceOutputPath item.imagePath))) hsafe]

/-- The seeded-then-probed media type record of the sample video. -/
def mtVideoSample : MediaTypeR :=
  ⟨"VIDEO", true, false, none, some (.probe ffMetaSample)⟩

/-- A task whose output directory `/tmp` lies outside the permitted
roots while the source video is permitted. -/
def itemOutside : GenItem := ⟨"/data/v.mp4", "/tmp/out.jpg"⟩

/-- C9 witness: the unpermitted output directory makes the concrete item
fail `NotPermitted` and leaves the file set untouched. -/
theorem genItem_outdir_guard_witness :
    (processGenItem envVideo cfgData wVideo itemOutside).2
        = .failed "/data/v.mp4" "/tmp/out.jpg" errNotPermitted
      ∧ (processGenItem envVideo cfgData wVideo itemOutside).1.files = wVideo.files :=
  ⟨(genItem_outdir_guard envVideo cfgData wVideo itemOutside).2 mtVideoSample rfl rfl rfl
      (by decide),
   (genItem_outdir_guard envVideo cfgData wVideo itemOutside).1 (by decide)⟩

/-- C10: the output directory is created before the permission check on
it, so an item that fails `NotPermitted` on its output directory still
leaves the newly created directory (with its ancestors) in the
filesystem: the failing item does not leave the filesystem state
unchanged. -/
theorem genItem_mkdir_persists (env : Env) (cfg : Config) (w : World) (item : GenItem)
    (hex : fsExistsSync w (dirname (coerceOutputPath item.imagePath)) = false)
    (hchk : checkPath cfg w item.videoPath = .ok ())
    (mt : MediaTypeR) (hdet : detectMediaType env cfg w item.videoPath = .ok mt)
    (hmt : mt.isVideo = true)
    (hsafe : isSafePath cfg (dirname (coerceOutputPath item.imagePath)) = false) :
    (processGenItem env cfg w item).2.success = false
    ∧ (processGenItem env cfg w item).1
        = mkdirRecSync w (dirname (coerceOutputPath item.imagePath))
    ∧ fsExistsSync (processGenItem env cfg w item).1
        (dirname (coerceOutputPath item.imagePath)) = true := by
  have hnotex : ¬ fsExistsSync w (dirname (coerceOutputPath item.imagePath)) = true := by
    simp [hex]
  have hres : processGenItem env cfg w item
      = (mkdirRecSync w (dirname (coerceOutputPath item.imagePath)),
         .failed item.videoPath item.imagePath errNotPermitted) := by
    simp only [processGenItem, hchk, hdet, hmt, Bool.true_eq_false, if_false,
      if_neg hnotex,
      checkPath_unsafe cfg _ _
        (fsExists_mkdir_self w (dirname (coerceOutputPath item.imagePath))) hsafe]
  rw [hres]
  exact ⟨rfl, rfl, fsExists_mkdir_self w _⟩

/-- A task whose output directory `/tmp/sub` does not exist and is not
permitted. -/
def itemDeep : GenItem := ⟨"/data/v.mp4", "/tmp/sub/out.jpg"⟩

/-- C10 witness: the concrete failing item creates `/tmp/sub` (and its
chain) even though it then fails `NotPermitted`. -/
theorem genItem_mkdir_persists_witness :
    (processGenItem envVideo cfgData wVideo itemDeep).2.success = false
      ∧ (processGenItem envVideo cfgData wVideo itemDeep).1
          = mkdirRecSync wVideo "/tmp/sub"
      ∧ fsExistsSync (processGenItem envVideo cfgData wVideo itemDeep).1 "/tmp/sub"
          = true :=
  genItem_mkdir_persists envVideo cfgData wVideo itemDeep (by decide) rfl
    mtVideoSample rfl rfl (by decide)

end MediaUtils
